import Mathlib

/-!
Shallow embedding of the duplidash backup-collection pipeline: the `POST`
route handler that authenticates against a remote backup server, discovers
the machine and its backup jobs, fetches per-job logs, filters and
normalizes log entries, deduplicates against the persisted store and
inserts one record per new backup run.

Conventions of the embedding:
* JavaScript field absence (`undefined`) is `Option.none`; the JS truthiness
  test `!x` on a string-valued field is `falsy` below (absent or empty).
* `new Date(s).toISOString()` either yields a normalized ISO string or
  throws (invalid date).  A timestamp field is embedded as the normalized
  result: `some iso` when the conversion succeeds, `none` when it throws
  (which covers an absent field, since `new Date(undefined)` is invalid).
* `JSON.parse(log.Message)` is external; a log entry carries `Option Msg`:
  `none` embeds a message string that fails to parse (the route's
  `try/catch` in the filter maps that to `false`), `some m` a decoded
  payload.  The route parses the same string twice (filter and loop);
  parsing is deterministic so one decoded value stands for both.
* Each network request (`makeRequest`) either rejects (transport error or a
  body that is not JSON) or resolves with `{ok, body}`; the `Remote`
  structure records the outcome of every request the route can make.
  Rejection is embedded as `none`, resolution as `some (ok, body)`.
* `uuidv4()` is embedded as a fresh-counter draw (`nextId`); no claim
  depends on the shape of the generated id.
-/

namespace Duplidash

/-- JS truthiness test `!x` for a string-valued expression: true when the
field is absent (`undefined`) or the empty string. -/
def falsy (o : Option String) : Bool := o.getD "" == ""

/-- `{ Name, DefaultValue }` inside the system-info `Options` array. -/
structure SystemInfoOption where
  Name : String
  DefaultValue : String
deriving DecidableEq, Repr

/-- The decoded body of the system-info response: `MachineName` and an
optional `Options` list. -/
structure SystemInfo where
  MachineName : Option String := none
  Options : Option (List SystemInfoOption) := none
deriving DecidableEq, Repr

/-- The inner `{ ID, Name }` of one element of the backups listing. -/
structure BackupJob where
  ID : String
  Name : String
deriving DecidableEq, Repr

/-- One element of the backups listing: `{ Backup: { ID, Name } }`. -/
structure BackupInfo where
  Backup : BackupJob
deriving DecidableEq, Repr

/-- The embedded backend-statistics sub-object of a decoded log message
(`message.BackendStatistics`).  Numeric fields are optional (absent =
`undefined`); `LastBackupDate` and `BeginTime` are fed to `new Date`:
`none` = absent/falsy (the route stores `null` without converting),
`some none` = present but invalid (the conversion throws),
`some (some s)` = present and valid with normalized form `s`. -/
structure Backend where
  BytesUploaded : Option Int := none
  BytesDownloaded : Option Int := none
  KnownFileSize : Option Int := none
  LastBackupDate : Option (Option String) := none
  BackupListCount : Option Int := none
  ReportedQuotaError : Bool := false
  ReportedQuotaWarning : Bool := false
  MainOperation : Option String := none
  ParsedResult : Option String := none
  Interrupted : Bool := false
  Version : Option String := none
  BeginTime : Option (Option String) := none
  Duration : Option String := none
  WarningsActualLength : Option Int := none
  ErrorsActualLength : Option Int := none
deriving DecidableEq, Repr

/-- A decoded log-entry payload (`JSON.parse(log.Message)`).  Boolean-like
fields record the JS truthiness of the original value (`x ? 1 : 0`);
`BeginTime`/`EndTime` are `new Date(...).toISOString()` results (`none` =
the conversion throws). -/
structure Msg where
  MainOperation : Option String := none
  ParsedResult : Option String := none
  BeginTime : Option String := none
  EndTime : Option String := none
  Duration : Option String := none
  WarningsActualLength : Option Int := none
  ErrorsActualLength : Option Int := none
  MessagesActualLength : Option Int := none
  ExaminedFiles : Option Int := none
  SizeOfExaminedFiles : Option Int := none
  Messages : Option String := none
  Warnings : Option String := none
  Errors : Option String := none
  DeletedFiles : Option Int := none
  DeletedFolders : Option Int := none
  ModifiedFiles : Option Int := none
  OpenedFiles : Option Int := none
  AddedFiles : Option Int := none
  SizeOfModifiedFiles : Option Int := none
  SizeOfAddedFiles : Option Int := none
  SizeOfOpenedFiles : Option Int := none
  NotProcessedFiles : Option Int := none
  AddedFolders : Option Int := none
  TooLargeFiles : Option Int := none
  FilesWithError : Option Int := none
  ModifiedFolders : Option Int := none
  ModifiedSymlinks : Option Int := none
  AddedSymlinks : Option Int := none
  DeletedSymlinks : Option Int := none
  PartialBackup : Bool := false
  Dryrun : Bool := false
  Interrupted : Bool := false
  Version : Option String := none
  BackendStatistics : Option Backend := none
deriving DecidableEq, Repr

/-- One raw log entry `{ Message: string }`; the opaque string is embedded
by its decode outcome (`none` = `JSON.parse` throws on it). -/
structure LogEntry where
  Message : Option Msg := none
deriving DecidableEq, Repr

/-- The row handed to `dbOps.insertBackup.run`, field for field. -/
structure BackupRecord where
  id : Nat := 0
  machine_id : String := ""
  backup_name : String := ""
  backup_id : String := ""
  date : String := ""
  status : Option String := none
  duration_seconds : Nat := 0
  size : Int := 0
  uploaded_size : Int := 0
  examined_files : Int := 0
  warnings : Int := 0
  errors : Int := 0
  messages_array : Option String := none
  warnings_array : Option String := none
  errors_array : Option String := none
  deleted_files : Int := 0
  deleted_folders : Int := 0
  modified_files : Int := 0
  opened_files : Int := 0
  added_files : Int := 0
  size_of_modified_files : Int := 0
  size_of_added_files : Int := 0
  size_of_examined_files : Int := 0
  size_of_opened_files : Int := 0
  not_processed_files : Int := 0
  added_folders : Int := 0
  too_large_files : Int := 0
  files_with_error : Int := 0
  modified_folders : Int := 0
  modified_symlinks : Int := 0
  added_symlinks : Int := 0
  deleted_symlinks : Int := 0
  partial_backup : Nat := 0
  dryrun : Nat := 0
  main_operation : Option String := none
  parsed_result : Option String := none
  interrupted : Nat := 0
  version : Option String := none
  begin_time : String := ""
  end_time : String := ""
  warnings_actual_length : Int := 0
  errors_actual_length : Int := 0
  messages_actual_length : Int := 0
  bytes_downloaded : Int := 0
  known_file_size : Int := 0
  last_backup_date : Option String := none
  backup_list_count : Int := 0
  reported_quota_error : Nat := 0
  reported_quota_warning : Nat := 0
  backend_main_operation : Option String := none
  backend_parsed_result : Option String := none
  backend_interrupted : Nat := 0
  backend_version : Option String := none
  backend_begin_time : Option String := none
  backend_duration : Option String := none
  backend_warnings_actual_length : Int := 0
  backend_errors_actual_length : Int := 0

/-- The persisted store: the `machines` table (id, name) and the
`backup_runs` table, in insertion order. -/
structure Store where
  machines : List (String × String) := []
  runs : List BackupRecord := []

/-- Whether a persisted row matches the dedup triple
(machine id, backup name, start time). -/
def tripleMatches (mid bname date : String) (r : BackupRecord) : Bool :=
  r.machine_id == mid && r.backup_name == bname && r.date == date

/-- Modelled from the spec: `dbUtils.checkDuplicateBackup` lives in
`lib/db-utils`, which is not among the provided sources.  Per §4.6 it is a
read-only exact-match lookup `exists(machineId, backupName, startTime)`
against the persisted BackupRun records. -/
def checkDuplicateBackup (st : Store) (mid bname date : String) : Bool :=
  st.runs.any (tripleMatches mid bname date)

/-- Modelled from the spec: `dbOps.upsertMachine` lives in `lib/db`, which
is not among the provided sources.  Per §3/§6 it is an idempotent upsert by
id: an existing row's name is overwritten, otherwise a row is appended. -/
def upsertMachine (st : Store) (mid mname : String) : Store :=
  if st.machines.any (fun p => p.1 == mid) then
    { st with machines := st.machines.map (fun p => if p.1 == mid then (mid, mname) else p) }
  else
    { st with machines := st.machines ++ [(mid, mname)] }

/-- Modelled from the spec: `dbOps.insertBackup` lives in `lib/db`, which is
not among the provided sources.  It is embedded as an unconditional append,
so that every theorem about duplicate rows rests on the route's own
deduplication gate (per §4.6 "the sole defense against inserting duplicate
rows") and not on the persistence layer's backstop constraint. -/
def insertBackup (st : Store) (r : BackupRecord) : Store :=
  { st with runs := st.runs ++ [r] }

/-- Split a character list at every occurrence of the separator `c`
(the list analogue of JS `String.split`). -/
def splitOnChar (c : Char) : List Char → List (List Char)
  | [] => [[]]
  | x :: xs =>
    let r := splitOnChar c xs
    if x = c then [] :: r
    else
      match r with
      | [] => [[x]]
      | y :: ys => (x :: y) :: ys

/-- A non-empty all-digit character list read as a decimal number;
`none` otherwise (the unparsable case). -/
def digitsToNat : List Char → Option Nat
  | [] => none
  | cs =>
    if cs.all Char.isDigit then
      some (cs.foldl (fun a c => a * 10 + (c.toNat - 48)) 0)
    else none

/-- Modelled from the spec: `parseDurationToSeconds` lives in `lib/db`,
which is not among the provided sources.  Per §4.5 it converts a duration
string of format `[days.]HH:MM:SS[.fractional]` to total whole seconds,
and maps an absent, empty or unparsable input to 0 rather than failing. -/
def parseDurationToSeconds (dur : Option String) : Nat :=
  match dur with
  | none => 0
  | some s =>
    match splitOnChar ':' s.toList with
    | [h, m, sec] =>
      let dayHour : Option Nat × Option Nat :=
        match splitOnChar '.' h with
        | [hh] => (some 0, digitsToNat hh)
        | [d, hh] => (digitsToNat d, digitsToNat hh)
        | _ => (none, none)
      let secWhole : Option Nat :=
        match splitOnChar '.' sec with
        | [w] => digitsToNat w
        | [w, f] => if f.all Char.isDigit && !f.isEmpty then digitsToNat w else none
        | _ => none
      match dayHour.1, dayHour.2, digitsToNat m, secWhole with
      | some d, some hh, some mm, some ss => d * 86400 + hh * 3600 + mm * 60 + ss
      | _, _, _, _ => 0
    | _ => 0

/-- The status override of lines 238-242: `status = message.ParsedResult`,
overridden to "Warning" when it is exactly "Success" and
`message.WarningsActualLength > 0` (in JS an absent length compares
false, which `getD 0` reproduces). -/
def mapStatus (m : Msg) : Option String :=
  let status := m.ParsedResult
  if status == some "Success" && m.WarningsActualLength.getD 0 > 0 then
    some "Warning"
  else status

/-- `x ? 1 : 0` on a truthiness bit. -/
def flag (b : Bool) : Nat := if b then 1 else 0

/-- A date field guarded by a truthiness test,
`x ? new Date(x).toISOString() : null`: an absent/falsy field stores
`null`, a present invalid one throws (`none`), a valid one stores its
normalized form. -/
def guardedDate : Option (Option String) → Option (Option String)
  | none => some none
  | some none => none
  | some (some s) => some (some s)

/-- The argument object of `dbOps.insertBackup.run` (lines 245-309), field
for field; `none` embeds the throw of one of the `new Date` conversions
while the object literal is evaluated (before any insert happens). -/
def buildRecord (uuid : Nat) (machineId backupName backupId backupDate : String)
    (status : Option String) (m : Msg) : Option BackupRecord := do
  let bs := m.BackendStatistics
  let beginTime ← m.BeginTime
  let endTime ← m.EndTime
  let lastBackupDate ← guardedDate (bs.bind Backend.LastBackupDate)
  let backendBeginTime ← guardedDate (bs.bind Backend.BeginTime)
  some
    { id := uuid
      machine_id := machineId
      backup_name := backupName
      backup_id := backupId
      date := backupDate
      status := status
      duration_seconds := parseDurationToSeconds m.Duration
      size := m.SizeOfExaminedFiles.getD 0
      uploaded_size := (bs.bind Backend.BytesUploaded).getD 0
      examined_files := m.ExaminedFiles.getD 0
      warnings := m.WarningsActualLength.getD 0
      errors := m.ErrorsActualLength.getD 0
      messages_array := m.Messages
      warnings_array := m.Warnings
      errors_array := m.Errors
      deleted_files := m.DeletedFiles.getD 0
      deleted_folders := m.DeletedFolders.getD 0
      modified_files := m.ModifiedFiles.getD 0
      opened_files := m.OpenedFiles.getD 0
      added_files := m.AddedFiles.getD 0
      size_of_modified_files := m.SizeOfModifiedFiles.getD 0
      size_of_added_files := m.SizeOfAddedFiles.getD 0
      size_of_examined_files := m.SizeOfExaminedFiles.getD 0
      size_of_opened_files := m.SizeOfOpenedFiles.getD 0
      not_processed_files := m.NotProcessedFiles.getD 0
      added_folders := m.AddedFolders.getD 0
      too_large_files := m.TooLargeFiles.getD 0
      files_with_error := m.FilesWithError.getD 0
      modified_folders := m.ModifiedFolders.getD 0
      modified_symlinks := m.ModifiedSymlinks.getD 0
      added_symlinks := m.AddedSymlinks.getD 0
      deleted_symlinks := m.DeletedSymlinks.getD 0
      partial_backup := flag m.PartialBackup
      dryrun := flag m.Dryrun
      main_operation := m.MainOperation
      parsed_result := m.ParsedResult
      interrupted := flag m.Interrupted
      version := m.Version
      begin_time := beginTime
      end_time := endTime
      warnings_actual_length := m.WarningsActualLength.getD 0
      errors_actual_length := m.ErrorsActualLength.getD 0
      messages_actual_length := m.MessagesActualLength.getD 0
      bytes_downloaded := (bs.bind Backend.BytesDownloaded).getD 0
      known_file_size := (bs.bind Backend.KnownFileSize).getD 0
      last_backup_date := lastBackupDate
      backup_list_count := (bs.bind Backend.BackupListCount).getD 0
      reported_quota_error := flag ((bs.map Backend.ReportedQuotaError).getD false)
      reported_quota_warning := flag ((bs.map Backend.ReportedQuotaWarning).getD false)
      backend_main_operation := bs.bind Backend.MainOperation
      backend_parsed_result := bs.bind Backend.ParsedResult
      backend_interrupted := flag ((bs.map Backend.Interrupted).getD false)
      backend_version := bs.bind Backend.Version
      backend_begin_time := backendBeginTime
      backend_duration := bs.bind Backend.Duration
      backend_warnings_actual_length := (bs.bind Backend.WarningsActualLength).getD 0
      backend_errors_actual_length := (bs.bind Backend.ErrorsActualLength).getD 0 }

/-- The mutable state of one `ProcessingJobs` phase: the store plus the
three counters, and the fresh-id counter standing for `uuidv4`. -/
structure RunState where
  store : Store
  processed : Nat := 0
  skipped : Nat := 0
  errorCount : Nat := 0
  nextId : Nat := 0

/-- One iteration of the inner `for (const log of backupMessages)` loop
(lines 218-312).  `none` embeds a thrown exception (an invalid
`BeginTime` at line 221, or a throw while the insert arguments are
built); the state then rolls back to the caller's `s`, as nothing was
mutated before the throw.  `some` returns the updated state: silently
`continue` on a falsy backup name, count a skip on a duplicate, or
insert and count a processed run. -/
def processEntry (machineId : String) (backups : List BackupInfo) (backupId : String)
    (s : RunState) (m : Msg) : Option RunState :=
  match m.BeginTime with
  | none => none
  | some backupDate =>
    let backupName := (backups.find? (fun b => b.Backup.ID == backupId)).map (fun b => b.Backup.Name)
    if falsy backupName then some s
    else
      let bname := backupName.getD ""
      if checkDuplicateBackup s.store machineId bname backupDate then
        some { s with skipped := s.skipped + 1 }
      else
        let status := mapStatus m
        match buildRecord s.nextId machineId bname backupId backupDate status m with
        | none => none
        | some r =>
          some { s with
                  store := insertBackup s.store r
                  processed := s.processed + 1
                  nextId := s.nextId + 1 }

/-- The inner loop over the retained messages of one job; an exception
(`Except.error`) carries the state reached so far, since earlier
iterations' inserts are not rolled back. -/
def processEntries (machineId : String) (backups : List BackupInfo) (backupId : String) :
    RunState → List Msg → Except RunState RunState
  | s, [] => .ok s
  | s, m :: rest =>
    match processEntry machineId backups backupId s m with
    | none => .error s
    | some s' => processEntries machineId backups backupId s' rest

/-- The filter of lines 205-216: keep the entries whose message decodes
and whose decoded `MainOperation` is exactly "Backup". -/
def retainedMessages (logs : List LogEntry) : List Msg :=
  (logs.filterMap LogEntry.Message).filter (fun m => m.MainOperation == some "Backup")

/-- The body of one iteration of the outer job loop given the log-fetch
outcome (`none` = the request rejected): any throw inside the `try` of
lines 190-313 is caught and counted into `errorCount`. -/
def processJobOutcome (machineId : String) (backups : List BackupInfo) (backupId : String)
    (s : RunState) (fetched : Option (Bool × List LogEntry)) : RunState :=
  match fetched with
  | none => { s with errorCount := s.errorCount + 1 }
  | some (ok, logs) =>
    if !ok then { s with errorCount := s.errorCount + 1 }
    else
      match processEntries machineId backups backupId s (retainedMessages logs) with
      | .ok s' => s'
      | .error s' => { s' with errorCount := s'.errorCount + 1 }

/-- The outcome of every request the route can make against the remote
server: `none` embeds a rejected request (transport error, or a body that
is not JSON), `some (ok, body)` a decoded response with its HTTP success
bit.  The login body is the optional `AccessToken`; `logsFor` gives the
response to `GET /api/v1/backup/{id}/log?pagesize=999` for each job id. -/
structure Remote where
  login : Option (Bool × Option String)
  systeminfo : Option (Bool × SystemInfo)
  backupsList : Option (Bool × List BackupInfo)
  logsFor : String → Option (Bool × List LogEntry)

/-- One iteration of the outer `for (const backupId of backupIds)` loop. -/
def processJob (remote : Remote) (machineId : String) (backups : List BackupInfo)
    (s : RunState) (backupId : String) : RunState :=
  processJobOutcome machineId backups backupId s (remote.logsFor backupId)

/-- The outer job loop (lines 189-317). -/
def processJobs (remote : Remote) (machineId : String) (backups : List BackupInfo) :
    RunState → List String → RunState
  | s, [] => s
  | s, bid :: rest => processJobs remote machineId backups (processJob remote machineId backups s bid) rest

/-- The decoded request body of the route: `port` and `allowSelfSigned`
only shape the URL and the TLS agent, which the `Remote` abstraction
absorbs, so they carry no behavior here. -/
structure CollectInput where
  hostname : Option String := none
  password : Option String := none
  protocol : Option String := none

/-- The route's possible responses: a 400 with an error message, a 500
with an error message (the outer catch), the 200 "No backups found"
body, and the 200 stats body. -/
inductive CollectResult where
  | badRequest (error : String)
  | serverError (error : String)
  | noBackups
  | success (processed skipped errors : Nat)
deriving DecidableEq, Repr

/-- The machine id extracted from system info (line 151):
`systemInfo.Options?.find(opt => opt.Name === 'machine-id')?.DefaultValue`. -/
def machineIdOf (si : SystemInfo) : Option String :=
  (si.Options.bind (List.find? (fun opt => opt.Name == "machine-id"))).map SystemInfoOption.DefaultValue

/-- The whole `POST` handler (lines 65-335) over the request body, the
remote server's behavior and the persisted store; `nextId` seeds the
fresh-uuid counter.  Returns the response and the store after the
invocation. -/
def collect (inp : CollectInput) (remote : Remote) (store : Store) (nextId : Nat := 0) :
    CollectResult × Store :=
  if falsy inp.hostname then (.badRequest "Hostname is required", store)
  else if falsy inp.password then (.badRequest "Password is required", store)
  else
    let protocol := inp.protocol.getD "http"
    if protocol != "http" && protocol != "https" then
      (.badRequest "Protocol must be either http or https", store)
    else
      match remote.login with
      | none => (.serverError "transport or decode failure during login", store)
      | some (ok, token) =>
        if !ok then (.serverError "Login failed", store)
        else if falsy token then (.serverError "No authentication token received", store)
        else
          match remote.systeminfo with
          | none => (.serverError "transport or decode failure during system info", store)
          | some (ok2, si) =>
            if !ok2 then (.serverError "Failed to get system info", store)
            else
              let machineId := machineIdOf si
              let machineName := si.MachineName
              if falsy machineId || falsy machineName then
                (.serverError "Could not get machine information", store)
              else
                let mid := machineId.getD ""
                let store1 := upsertMachine store mid (machineName.getD "")
                match remote.backupsList with
                | none => (.serverError "transport or decode failure during backups list", store1)
                | some (ok3, backups) =>
                  if !ok3 then (.serverError "Failed to get backups list", store1)
                  else
                    let backupIds := backups.map (fun b => b.Backup.ID)
                    if backupIds.isEmpty then (.noBackups, store1)
                    else
                      let final := processJobs remote mid backups
                        { store := store1, nextId := nextId } backupIds
                      (.success final.processed final.skipped final.errorCount, final.store)

/-! ### Concrete scenario pieces, used to instantiate theorems with
hypotheses at closed inputs. -/

/-- A fully valid decoded backup message. -/
def exMsg : Msg :=
  { MainOperation := some "Backup"
    ParsedResult := some "Success"
    WarningsActualLength := some 2
    BeginTime := some "2024-01-01T00:00:00.000Z"
    EndTime := some "2024-01-01T01:00:00.000Z" }

/-- A second valid message with a different start time and a clean result. -/
def exMsg2 : Msg :=
  { MainOperation := some "Backup"
    ParsedResult := some "Error"
    BeginTime := some "2024-01-02T00:00:00.000Z"
    EndTime := some "2024-01-02T01:00:00.000Z" }

/-- A message whose `BeginTime` fails `new Date(...).toISOString()`. -/
def exBadMsg : Msg :=
  { MainOperation := some "Backup"
    ParsedResult := some "Success"
    BeginTime := none
    EndTime := some "2024-01-03T01:00:00.000Z" }

/-- A non-backup (noise) entry, as from a Compact operation. -/
def exNoise : Msg := { MainOperation := some "Compact" }

def exJobA : BackupInfo := ⟨⟨"a", "JobA"⟩⟩
def exJobB : BackupInfo := ⟨⟨"b", "JobB"⟩⟩
def exJobC : BackupInfo := ⟨⟨"c", "JobC"⟩⟩

def exSys : SystemInfo :=
  { MachineName := some "m1", Options := some [⟨"machine-id", "MID"⟩] }

def exInput : CollectInput := { hostname := some "h", password := some "p" }

/-- The record the pipeline builds from `exMsg` under machine "MID" and
job "JobA" with fresh id 0. -/
def exRec : BackupRecord :=
  (buildRecord 0 "MID" "JobA" "a" "2024-01-01T00:00:00.000Z" (mapStatus exMsg) exMsg).getD {}

/-- A remote with one job whose log holds one valid backup entry. -/
def exRemote : Remote :=
  { login := some (true, some "tok")
    systeminfo := some (true, exSys)
    backupsList := some (true, [exJobA])
    logsFor := fun _ => some (true, [⟨some exMsg⟩]) }

/-- Two rows with the same dedup triple (machine id, backup name, start
time). -/
def sameTriple (r1 r2 : BackupRecord) : Prop :=
  r1.machine_id = r2.machine_id ∧ r1.backup_name = r2.backup_name ∧ r1.date = r2.date

/-- `runs` extends `base` by rows whose dedup triples are pairwise distinct
and absent from `base`. -/
def dedupExtends (base runs : List BackupRecord) : Prop :=
  ∃ new, runs = base ++ new
    ∧ new.Pairwise (fun r1 r2 => ¬ sameTriple r1 r2)
    ∧ ∀ r ∈ new, ∀ r0 ∈ base, ¬ sameTriple r r0

/-- The state carried by either side of a `processEntries` outcome. -/
def exceptState : Except RunState RunState → RunState
  | .ok s => s
  | .error s => s

/-- A remote that reports no backup jobs at all. -/
def exRemoteNoJobs : Remote :=
  { login := some (true, some "tok")
    systeminfo := some (true, exSys)
    backupsList := some (true, [])
    logsFor := fun _ => none }

/-- A remote that authenticates and reports system info but whose
backups-list request rejects. -/
def exRemoteListFails : Remote :=
  { login := some (true, some "tok")
    systeminfo := some (true, exSys)
    backupsList := none
    logsFor := fun _ => none }

/-- A remote whose single job's log holds a valid entry, then an entry
with an invalid begin timestamp, then another valid entry. -/
def exRemoteBadEntry : Remote :=
  { login := some (true, some "tok")
    systeminfo := some (true, exSys)
    backupsList := some (true, [exJobA])
    logsFor := fun _ => some (true, [⟨some exMsg⟩, ⟨some exBadMsg⟩, ⟨some exMsg2⟩]) }

/-- The record the pipeline builds from `exMsg2` under machine "MID" and
job "JobC" with fresh id 1. -/
def exRec2 : BackupRecord :=
  (buildRecord 1 "MID" "JobC" "c" "2024-01-02T00:00:00.000Z" (mapStatus exMsg2) exMsg2).getD {}

/-- A remote with three jobs a, b, c whose middle log fetch rejects while
a and c return one valid entry each. -/
def exRemote3 : Remote :=
  { login := some (true, some "tok")
    systeminfo := some (true, exSys)
    backupsList := some (true, [exJobA, exJobB, exJobC])
    logsFor := fun bid =>
      if bid == "b" then none
      else if bid == "a" then some (true, [⟨some exMsg⟩])
      else some (true, [⟨some exMsg2⟩]) }

/-- Messages for the repeated-collection scenario: two jobs share the
backup name "Job"; job a's history holds an entry with an invalid end
timestamp whose start time coincides with job c's valid entry. -/
def cexMsgBad : Msg :=
  { MainOperation := some "Backup"
    ParsedResult := some "Success"
    BeginTime := some "D1"
    EndTime := none }

def cexMsgOk2 : Msg :=
  { MainOperation := some "Backup"
    ParsedResult := some "Success"
    BeginTime := some "D2"
    EndTime := some "D2E" }

def cexMsgOk1 : Msg :=
  { MainOperation := some "Backup"
    ParsedResult := some "Success"
    BeginTime := some "D1"
    EndTime := some "D1E" }

/-- A remote on which repeated collection is not idempotent: the first run
errors on job a's first entry, then inserts the same dedup triple from
job c; the second run therefore skips past a's bad entry and inserts a's
second entry. -/
def cexRemote : Remote :=
  { login := some (true, some "tok")
    systeminfo := some (true, exSys)
    backupsList := some (true, [⟨⟨"a", "Job"⟩⟩, ⟨⟨"c", "Job"⟩⟩])
    logsFor := fun bid =>
      if bid == "a" then some (true, [⟨some cexMsgBad⟩, ⟨some cexMsgOk2⟩])
      else some (true, [⟨some cexMsgOk1⟩]) }

end Duplidash

/-! ## Theorems -/

namespace Duplidash

theorem splitOnChar_of_not_mem (c : Char) (xs : List Char) (h : ∀ x ∈ xs, x ≠ c) :
    splitOnChar c xs = [xs] := by
  induction xs with
  | nil => rfl
  | cons x xs ih =>
    have hx : x ≠ c := h x (by simp)
    simp only [splitOnChar, ih (fun y hy => h y (by simp [hy])), if_neg hx]

theorem splitOnChar_append (c : Char) (xs ys : List Char) (h : ∀ x ∈ xs, x ≠ c) :
    splitOnChar c (xs ++ c :: ys) = xs :: splitOnChar c ys := by
  induction xs with
  | nil => simp [splitOnChar]
  | cons x xs ih =>
    have hx : x ≠ c := h x (by simp)
    simp only [List.cons_append, splitOnChar, List.append_eq,
      ih (fun y hy => h y (by simp [hy])), if_neg hx]

theorem digitsToNat_all_digits (cs : List Char) (n : Nat) (h : digitsToNat cs = some n) :
    ∀ x ∈ cs, x.isDigit = true := by
  cases cs with
  | nil => simp [digitsToNat] at h
  | cons x xs =>
    simp only [digitsToNat] at h
    split at h
    · next hall => intro y hy; exact List.all_eq_true.mp hall y hy
    · simp at h

theorem digitsToNat_ne_nil (cs : List Char) (n : Nat) (h : digitsToNat cs = some n) :
    cs ≠ [] := by
  intro he
  subst he
  simp [digitsToNat] at h

theorem duration_sep_ne (cs : List Char) (n : Nat) (h : digitsToNat cs = some n)
    (c : Char) (hc : c.isDigit = false) : ∀ x ∈ cs, x ≠ c := by
  intro x hx he
  subst he
  rw [digitsToNat_all_digits cs n h x hx] at hc
  simp at hc

/-- C8: the duration-to-seconds conversion maps `[days.]HH:MM:SS[.fractional]`
to total whole seconds (in particular "1.02:03:04" to 93784) and maps an
absent, empty, or unparsable duration to 0 rather than failing. -/
theorem parseDuration_spec (D H M S F : List Char) (d hh mm ss fr : Nat)
    (hD : digitsToNat D = some d) (hH : digitsToNat H = some hh)
    (hM : digitsToNat M = some mm) (hS : digitsToNat S = some ss)
    (hF : digitsToNat F = some fr) :
    parseDurationToSeconds (some (String.mk (D ++ '.' :: H ++ ':' :: M ++ ':' :: S)))
        = d * 86400 + hh * 3600 + mm * 60 + ss
    ∧ parseDurationToSeconds (some (String.mk (H ++ ':' :: M ++ ':' :: S)))
        = hh * 3600 + mm * 60 + ss
    ∧ parseDurationToSeconds
        (some (String.mk (D ++ '.' :: H ++ ':' :: M ++ ':' :: (S ++ '.' :: F))))
        = d * 86400 + hh * 3600 + mm * 60 + ss
    ∧ parseDurationToSeconds (some "1.02:03:04") = 93784
    ∧ parseDurationToSeconds none = 0
    ∧ parseDurationToSeconds (some "") = 0
    ∧ parseDurationToSeconds (some "not a duration") = 0 := by
  have hcM := duration_sep_ne M mm hM ':' (by decide)
  have hcS := duration_sep_ne S ss hS ':' (by decide)
  have hcF := duration_sep_ne F fr hF ':' (by decide)
  have hdD := duration_sep_ne D d hD '.' (by decide)
  have hdH := duration_sep_ne H hh hH '.' (by decide)
  have hdS := duration_sep_ne S ss hS '.' (by decide)
  have hDH : ∀ x ∈ D ++ '.' :: H, x ≠ ':' := by
    intro x hx
    rcases List.mem_append.mp hx with hm | hm
    · exact duration_sep_ne D d hD ':' (by decide) x hm
    · rcases List.mem_cons.mp hm with rfl | hm
      · decide
      · exact duration_sep_ne H hh hH ':' (by decide) x hm
  have hSF : ∀ x ∈ S ++ '.' :: F, x ≠ ':' := by
    intro x hx
    rcases List.mem_append.mp hx with hm | hm
    · exact hcS x hm
    · rcases List.mem_cons.mp hm with rfl | hm
      · decide
      · exact hcF x hm
  refine ⟨?_, ?_, ?_, by decide, rfl, by decide, by decide⟩
  · have s1 : splitOnChar ':' (D ++ '.' :: H ++ ':' :: M ++ ':' :: S) = [D ++ '.' :: H, M, S] := by
      have e1 : D ++ '.' :: H ++ ':' :: M ++ ':' :: S = (D ++ '.' :: H) ++ ':' :: (M ++ ':' :: S) := by
        simp
      rw [e1, splitOnChar_append ':' _ _ hDH, splitOnChar_append ':' M _ hcM,
        splitOnChar_of_not_mem ':' S hcS]
    have s2 : splitOnChar '.' (D ++ '.' :: H) = [D, H] := by
      rw [splitOnChar_append '.' D H hdD, splitOnChar_of_not_mem '.' H hdH]
    have s3 : splitOnChar '.' S = [S] := splitOnChar_of_not_mem '.' S hdS
    simp only [parseDurationToSeconds]
    rw [show (String.mk (D ++ '.' :: H ++ ':' :: M ++ ':' :: S)).toList
          = D ++ '.' :: H ++ ':' :: M ++ ':' :: S from rfl, s1]
    simp only [s2, s3, hD, hH, hM, hS]
  · have s1 : splitOnChar ':' (H ++ ':' :: M ++ ':' :: S) = [H, M, S] := by
      have e1 : H ++ ':' :: M ++ ':' :: S = H ++ ':' :: (M ++ ':' :: S) := by simp
      rw [e1, splitOnChar_append ':' H _ (duration_sep_ne H hh hH ':' (by decide)),
        splitOnChar_append ':' M _ hcM, splitOnChar_of_not_mem ':' S hcS]
    have s2 : splitOnChar '.' H = [H] := splitOnChar_of_not_mem '.' H hdH
    have s3 : splitOnChar '.' S = [S] := splitOnChar_of_not_mem '.' S hdS
    simp only [parseDurationToSeconds]
    rw [show (String.mk (H ++ ':' :: M ++ ':' :: S)).toList = H ++ ':' :: M ++ ':' :: S from rfl,
      s1]
    simp only [s2, s3, hH, hM, hS]
    omega
  · have s1 : splitOnChar ':' (D ++ '.' :: H ++ ':' :: M ++ ':' :: (S ++ '.' :: F))
        = [D ++ '.' :: H, M, S ++ '.' :: F] := by
      have e1 : D ++ '.' :: H ++ ':' :: M ++ ':' :: (S ++ '.' :: F)
          = (D ++ '.' :: H) ++ ':' :: (M ++ ':' :: (S ++ '.' :: F)) := by
        simp
      rw [e1, splitOnChar_append ':' _ _ hDH, splitOnChar_append ':' M _ hcM,
        splitOnChar_of_not_mem ':' _ hSF]
    have s2 : splitOnChar '.' (D ++ '.' :: H) = [D, H] := by
      rw [splitOnChar_append '.' D H hdD, splitOnChar_of_not_mem '.' H hdH]
    have s3 : splitOnChar '.' (S ++ '.' :: F) = [S, F] := by
      rw [splitOnChar_append '.' S F hdS, splitOnChar_of_not_mem '.' F
        (fun x hx => duration_sep_ne F fr hF '.' (by decide) x hx)]
    have hFall : F.all Char.isDigit = true :=
      List.all_eq_true.mpr (digitsToNat_all_digits F fr hF)
    have hFne : F.isEmpty = false := by
      cases F with
      | nil => exact absurd hF (by simp [digitsToNat])
      | cons x xs => rfl
    simp only [parseDurationToSeconds]
    rw [show (String.mk (D ++ '.' :: H ++ ':' :: M ++ ':' :: (S ++ '.' :: F))).toList
          = D ++ '.' :: H ++ ':' :: M ++ ':' :: (S ++ '.' :: F) from rfl, s1]
    simp only [s2, s3, hFall, hFne, hD, hH, hM, hS, Bool.not_false, Bool.and_true, if_true]

/-- C8 witness: the theorem instantiated at "1.02:03:04". -/
theorem parseDuration_spec_witness :
    parseDurationToSeconds (some (String.mk ['1', '.', '0', '2', ':', '0', '3', ':', '0', '4']))
      = 1 * 86400 + 2 * 3600 + 3 * 60 + 4 :=
  (parseDuration_spec ['1'] ['0', '2'] ['0', '3'] ['0', '4'] ['5'] 1 2 3 4 5
    rfl rfl rfl rfl rfl).1


theorem buildRecord_fields (uuid : Nat) (mid bname bid date : String) (st : Option String)
    (m : Msg) (r : BackupRecord) (h : buildRecord uuid mid bname bid date st m = some r) :
    r.status = st ∧ r.machine_id = mid ∧ r.backup_name = bname ∧ r.date = date := by
  cases hb : m.BeginTime with
  | none => simp [buildRecord, hb] at h
  | some bt =>
    cases he : m.EndTime with
    | none => simp [buildRecord, hb, he] at h
    | some et =>
      cases hl : guardedDate (m.BackendStatistics.bind Backend.LastBackupDate) with
      | none => simp [buildRecord, hb, he, hl] at h
      | some l =>
        cases hbb : guardedDate (m.BackendStatistics.bind Backend.BeginTime) with
        | none => simp [buildRecord, hb, he, hl, hbb] at h
        | some bb =>
          simp only [buildRecord, hb, he, hl, hbb, Option.bind_eq_bind, Option.some_bind,
            Option.some.injEq] at h
          subst h
          exact ⟨rfl, rfl, rfl, rfl⟩

theorem stored_status (mid : String) (bs : List BackupInfo) (bid : String)
    (s : RunState) (m : Msg) (s' : RunState) (r : BackupRecord)
    (h : processEntry mid bs bid s m = some s')
    (hr : s'.store.runs = s.store.runs ++ [r]) :
    r.status = mapStatus m := by
  simp only [processEntry] at h
  split at h
  · exact absurd h (by simp)
  · split at h
    · rw [← Option.some.inj h] at hr
      exact absurd (congrArg List.length hr) (by simp)
    · split at h
      · rw [← Option.some.inj h] at hr
        exact absurd (congrArg List.length hr) (by simp)
      · split at h
        · exact absurd h (by simp)
        · next r0 hbuild =>
          rw [← Option.some.inj h] at hr
          simp only [insertBackup] at hr
          have hrr : r0 = r := by
            have := List.append_cancel_left hr
            exact (List.cons.inj this).1
          subst hrr
          exact (buildRecord_fields _ _ _ _ _ _ _ _ hbuild).1

/-- C2: for every retained log entry whose processing inserts a row, the
stored status equals the entry parsed-result field, except that parsed
result "Success" with strictly positive warnings-length is stored as
"Warning"; "Success" with warnings-length 0 is stored unchanged, and any
non-"Success" parsed result passes through unmodified. -/
theorem status_override (mid : String) (bs : List BackupInfo) (bid : String)
    (s : RunState) (m : Msg) (s' : RunState) (r : BackupRecord)
    (h : processEntry mid bs bid s m = some s')
    (hr : s'.store.runs = s.store.runs ++ [r]) :
    (m.ParsedResult = some "Success" → 0 < m.WarningsActualLength.getD 0 →
        r.status = some "Warning")
    ∧ (m.ParsedResult = some "Success" → m.WarningsActualLength.getD 0 = 0 →
        r.status = some "Success")
    ∧ (m.ParsedResult ≠ some "Success" → r.status = m.ParsedResult) := by
  rw [stored_status mid bs bid s m s' r h hr]
  unfold mapStatus
  refine ⟨fun hp hw => ?_, fun hp hw => ?_, fun hp => ?_⟩
  · simp [hp, hw]
  · simp [hp, hw]
  · simp [hp]

/-- C2 witness: the theorem applied to the concrete entry `exMsg`
("Success" with warnings-length 2), whose stored status is "Warning". -/
theorem status_override_witness : exRec.status = some "Warning" :=
  (status_override "MID" [exJobA] "a" { store := {} } exMsg
      { store := { runs := [exRec] }, processed := 1, nextId := 1 } exRec rfl rfl).1
    rfl (by decide)


/-- C5: when the hostname is missing, the password is missing, or the
scheme is neither "http" nor "https", the invocation fails with a
configuration error (HTTP 400) whose response leaves the store untouched
and does not depend on the remote server at all — no network request is
attempted and no persisted state is read or written. -/
theorem config_error_before_network (inp : CollectInput) (remote : Remote) (store : Store)
    (n : Nat)
    (h : falsy inp.hostname = true ∨ falsy inp.password = true ∨
      (inp.protocol.getD "http" ≠ "http" ∧ inp.protocol.getD "http" ≠ "https")) :
    ∃ msg, collect inp remote store n = (.badRequest msg, store) := by
  unfold collect
  by_cases h1 : falsy inp.hostname = true
  · exact ⟨"Hostname is required", by rw [if_pos h1]⟩
  · rw [if_neg h1]
    by_cases h2 : falsy inp.password = true
    · exact ⟨"Password is required", by rw [if_pos h2]⟩
    · rw [if_neg h2]
      rcases h with h | h | h
      · exact absurd h h1
      · exact absurd h h2
      · refine ⟨"Protocol must be either http or https", ?_⟩
        have hb : (inp.protocol.getD "http" != "http" && inp.protocol.getD "http" != "https") = true := by
          simp [h.1, h.2]
        rw [if_pos hb]

/-- C5 witness: scheme "ftp" is rejected with a 400 against a remote whose
every request would reject, with the store returned unchanged. -/
theorem config_error_before_network_witness :
    ∃ msg,
      collect { hostname := some "h", password := some "p", protocol := some "ftp" }
        { login := none, systeminfo := none, backupsList := none, logsFor := fun _ => none }
        {} 0 = (.badRequest msg, {}) :=
  config_error_before_network _ _ {} 0 (Or.inr (Or.inr ⟨by decide, by decide⟩))

/-- C6: a raw log entry whose message fails to decode, or whose decoded
MainOperation is anything but "Backup", contributes nothing to a job:
the job outcome with the entry spliced anywhere into the fetched log list
equals the outcome without it — no record, no counter change. -/
theorem noise_entry_ignored (mid : String) (bs : List BackupInfo) (bid : String)
    (s : RunState) (e : LogEntry) (l1 l2 : List LogEntry)
    (h : e.Message = none ∨ ∃ m, e.Message = some m ∧ m.MainOperation ≠ some "Backup") :
    processJobOutcome mid bs bid s (some (true, l1 ++ e :: l2))
      = processJobOutcome mid bs bid s (some (true, l1 ++ l2)) := by
  have hr : retainedMessages (l1 ++ e :: l2) = retainedMessages (l1 ++ l2) := by
    unfold retainedMessages
    rcases h with h | ⟨m, hm, hop⟩
    · simp [List.filterMap_append, h]
    · simp [List.filterMap_append, List.filter_append, hm, hop]
  simp only [processJobOutcome, hr]

/-- C6 witness: a "Compact" entry between two valid backup entries leaves
the job outcome unchanged. -/
theorem noise_entry_ignored_witness :
    processJobOutcome "MID" [exJobA] "a" { store := {} }
        (some (true, [⟨some exMsg⟩, ⟨some exNoise⟩, ⟨some exMsg2⟩]))
      = processJobOutcome "MID" [exJobA] "a" { store := {} }
        (some (true, [⟨some exMsg⟩, ⟨some exMsg2⟩])) :=
  noise_entry_ignored "MID" [exJobA] "a" { store := {} } ⟨some exNoise⟩
    [⟨some exMsg⟩] [⟨some exMsg2⟩]
    (Or.inr ⟨exNoise, rfl, by decide⟩)


/-- C7: a remote returning zero backup jobs makes the invocation terminate
successfully with the distinct "No backups found" outcome — before any log
retrieval, extraction or run persistence — and that outcome is a different
constructor from every counted CollectionResult and every error response. -/
theorem no_backups_outcome (inp : CollectInput) (remote : Remote) (store : Store) (n : Nat)
    (tok : Option String) (si : SystemInfo)
    (hh : falsy inp.hostname = false) (hp : falsy inp.password = false)
    (hproto : (inp.protocol.getD "http" != "http" && inp.protocol.getD "http" != "https") = false)
    (hlogin : remote.login = some (true, tok)) (htok : falsy tok = false)
    (hsys : remote.systeminfo = some (true, si))
    (hmach : (falsy (machineIdOf si) || falsy si.MachineName) = false)
    (hlist : remote.backupsList = some (true, [])) :
    collect inp remote store n
      = (.noBackups, upsertMachine store ((machineIdOf si).getD "") (si.MachineName.getD ""))
    ∧ (∀ p k e, CollectResult.noBackups ≠ .success p k e)
    ∧ (∀ msg, CollectResult.noBackups ≠ .serverError msg ∧ CollectResult.noBackups ≠ .badRequest msg) := by
  refine ⟨?_, fun p k e => by simp, fun msg => ⟨by simp, by simp⟩⟩
  unfold collect
  simp only [hh, hp, hproto, hlogin, htok, hsys, hmach, hlist, Bool.not_true, Bool.not_false,
    Bool.false_eq_true, if_false, if_true, List.map_nil, List.isEmpty_nil]

/-- C7 witness: the theorem applied to a concrete remote with an empty
backups list. -/
theorem no_backups_outcome_witness :
    collect exInput exRemoteNoJobs {} 0 = (.noBackups, { machines := [("MID", "m1")] }) :=
  (no_backups_outcome exInput exRemoteNoJobs {} 0 (some "tok") exSys
    rfl rfl rfl rfl rfl rfl rfl rfl).1


theorem processEntry_cases (mid : String) (bs : List BackupInfo) (bid : String)
    (s : RunState) (m : Msg) :
    processEntry mid bs bid s m = none
    ∨ processEntry mid bs bid s m = some s
    ∨ processEntry mid bs bid s m = some { s with skipped := s.skipped + 1 }
    ∨ ∃ r, processEntry mid bs bid s m
        = some { s with store := insertBackup s.store r, processed := s.processed + 1,
                        nextId := s.nextId + 1 } := by
  simp only [processEntry]
  split
  · exact Or.inl rfl
  · split
    · exact Or.inr (Or.inl rfl)
    · split
      · exact Or.inr (Or.inr (Or.inl rfl))
      · split
        · exact Or.inl rfl
        · next r heq => exact Or.inr (Or.inr (Or.inr ⟨r, rfl⟩))

theorem processEntry_some_fields (mid : String) (bs : List BackupInfo) (bid : String)
    (s : RunState) (m : Msg) (s' : RunState)
    (h : processEntry mid bs bid s m = some s') :
    s'.errorCount = s.errorCount ∧ s'.store.machines = s.store.machines
      ∧ ∃ tail, s'.store.runs = s.store.runs ++ tail := by
  rcases processEntry_cases mid bs bid s m with hc | hc | hc | ⟨r, hc⟩ <;>
    rw [hc] at h
  · exact absurd h (by simp)
  all_goals rw [← Option.some.inj h]
  · exact ⟨rfl, rfl, [], by simp⟩
  · exact ⟨rfl, rfl, [], by simp⟩
  · exact ⟨rfl, rfl, [r], rfl⟩

theorem processEntries_fields (mid : String) (bs : List BackupInfo) (bid : String)
    (ms : List Msg) (s : RunState) :
    (exceptState (processEntries mid bs bid s ms)).errorCount = s.errorCount
    ∧ (exceptState (processEntries mid bs bid s ms)).store.machines = s.store.machines
    ∧ ∃ tail, (exceptState (processEntries mid bs bid s ms)).store.runs
        = s.store.runs ++ tail := by
  induction ms generalizing s with
  | nil => exact ⟨rfl, rfl, [], by simp [processEntries, exceptState]⟩
  | cons m rest ih =>
    simp only [processEntries]
    cases he : processEntry mid bs bid s m with
    | none => exact ⟨rfl, rfl, [], by simp [exceptState]⟩
    | some s1 =>
      obtain ⟨h1, h2, tail1, h3⟩ := processEntry_some_fields mid bs bid s m s1 he
      obtain ⟨g1, g2, tail2, g3⟩ := ih s1
      exact ⟨g1.trans h1, g2.trans h2, tail1 ++ tail2, by rw [g3, h3, List.append_assoc]⟩

theorem processJob_eq_reject (remote : Remote) (mid : String) (bs : List BackupInfo)
    (s : RunState) (bid : String) (hl : remote.logsFor bid = none) :
    processJob remote mid bs s bid = { s with errorCount := s.errorCount + 1 } := by
  simp [processJob, processJobOutcome, hl]

theorem processJob_eq_notok (remote : Remote) (mid : String) (bs : List BackupInfo)
    (s : RunState) (bid : String) (logs : List LogEntry)
    (hl : remote.logsFor bid = some (false, logs)) :
    processJob remote mid bs s bid = { s with errorCount := s.errorCount + 1 } := by
  simp [processJob, processJobOutcome, hl]

theorem processJob_eq_ok (remote : Remote) (mid : String) (bs : List BackupInfo)
    (s : RunState) (bid : String) (logs : List LogEntry) (s' : RunState)
    (hl : remote.logsFor bid = some (true, logs))
    (he : processEntries mid bs bid s (retainedMessages logs) = .ok s') :
    processJob remote mid bs s bid = s' := by
  simp [processJob, processJobOutcome, hl, he]

theorem processJob_eq_err (remote : Remote) (mid : String) (bs : List BackupInfo)
    (s : RunState) (bid : String) (logs : List LogEntry) (s' : RunState)
    (hl : remote.logsFor bid = some (true, logs))
    (he : processEntries mid bs bid s (retainedMessages logs) = .error s') :
    processJob remote mid bs s bid = { s' with errorCount := s'.errorCount + 1 } := by
  simp [processJob, processJobOutcome, hl, he]

theorem processJob_fields (remote : Remote) (mid : String) (bs : List BackupInfo)
    (s : RunState) (bid : String) :
    (processJob remote mid bs s bid).store.machines = s.store.machines
    ∧ (∃ tail, (processJob remote mid bs s bid).store.runs = s.store.runs ++ tail)
    ∧ s.errorCount ≤ (processJob remote mid bs s bid).errorCount
    ∧ (processJob remote mid bs s bid).errorCount ≤ s.errorCount + 1 := by
  cases hl : remote.logsFor bid with
  | none =>
    rw [processJob_eq_reject remote mid bs s bid hl]
    exact ⟨rfl, ⟨[], by simp⟩, by simp, by simp⟩
  | some p =>
    obtain ⟨ok, logs⟩ := p
    cases ok with
    | false =>
      rw [processJob_eq_notok remote mid bs s bid logs hl]
      exact ⟨rfl, ⟨[], by simp⟩, by simp, by simp⟩
    | true =>
      have hf := processEntries_fields mid bs bid (retainedMessages logs) s
      cases he : processEntries mid bs bid s (retainedMessages logs) with
      | ok s' =>
        rw [he] at hf
        simp only [exceptState] at hf
        obtain ⟨h1, h2, tail, h3⟩ := hf
        rw [processJob_eq_ok remote mid bs s bid logs s' hl he]
        exact ⟨h2, ⟨tail, h3⟩, le_of_eq h1.symm, by omega⟩
      | error s' =>
        rw [he] at hf
        simp only [exceptState] at hf
        obtain ⟨h1, h2, tail, h3⟩ := hf
        rw [processJob_eq_err remote mid bs s bid logs s' hl he]
        exact ⟨h2, ⟨tail, h3⟩, by simp; omega, by simp; omega⟩

theorem processJobs_fields (remote : Remote) (mid : String) (bs : List BackupInfo)
    (ids : List String) (s : RunState) :
    (processJobs remote mid bs s ids).store.machines = s.store.machines
    ∧ (∃ tail, (processJobs remote mid bs s ids).store.runs = s.store.runs ++ tail)
    ∧ s.errorCount ≤ (processJobs remote mid bs s ids).errorCount := by
  induction ids generalizing s with
  | nil => exact ⟨rfl, ⟨[], by simp [processJobs]⟩, le_refl _⟩
  | cons bid rest ih =>
    simp only [processJobs]
    obtain ⟨h1, ⟨tail1, h2⟩, h3, _⟩ := processJob_fields remote mid bs s bid
    obtain ⟨g1, ⟨tail2, g2⟩, g3⟩ := ih (processJob remote mid bs s bid)
    exact ⟨g1.trans h1, ⟨tail1 ++ tail2, by rw [g2, h2, List.append_assoc]⟩, h3.trans g3⟩


/-- C10: once authentication and system-info retrieval have succeeded, the
machine row is upserted before the backup-list request, so whatever the
backups listing and every later step do — reject, return a non-success
status, or process jobs — the final store's machines table is exactly the
upserted one. -/
theorem machine_upsert_precedes_listing (inp : CollectInput) (remote : Remote) (store : Store)
    (n : Nat) (tok : Option String) (si : SystemInfo)
    (hh : falsy inp.hostname = false) (hp : falsy inp.password = false)
    (hproto : (inp.protocol.getD "http" != "http" && inp.protocol.getD "http" != "https") = false)
    (hlogin : remote.login = some (true, tok)) (htok : falsy tok = false)
    (hsys : remote.systeminfo = some (true, si))
    (hmach : (falsy (machineIdOf si) || falsy si.MachineName) = false) :
    ((collect inp remote store n).2).machines
      = (upsertMachine store ((machineIdOf si).getD "") (si.MachineName.getD "")).machines := by
  unfold collect
  simp only [hh, hp, hproto, hlogin, htok, hsys, hmach, Bool.not_true, Bool.not_false,
    Bool.false_eq_true, if_false, if_true]
  cases hb : remote.backupsList with
  | none => rfl
  | some p =>
    obtain ⟨ok, backups⟩ := p
    cases ok with
    | false => rfl
    | true =>
      by_cases hempty : (backups.map (fun b => b.Backup.ID)).isEmpty = true
      · simp only [hempty, Bool.not_true, Bool.false_eq_true, if_false, if_true]
      · simp only [hempty, Bool.not_true, Bool.false_eq_true, if_false, iff_false,
          eq_self_iff_true, if_true]
        exact (processJobs_fields remote ((machineIdOf si).getD "") backups
          (backups.map (fun b => b.Backup.ID)) _).1

/-- C10 witness: the theorem applied to a remote whose backups-list request
rejects; the machine row is in the store nonetheless. -/
theorem machine_upsert_precedes_listing_witness :
    ((collect exInput exRemoteListFails {} 0).2).machines = [("MID", "m1")] :=
  machine_upsert_precedes_listing exInput exRemoteListFails {} 0 (some "tok") exSys
    rfl rfl rfl rfl rfl rfl rfl


theorem processEntries_append (mid : String) (bs : List BackupInfo) (bid : String)
    (s : RunState) (l1 l2 : List Msg) :
    processEntries mid bs bid s (l1 ++ l2)
      = match processEntries mid bs bid s l1 with
        | .ok u => processEntries mid bs bid u l2
        | .error u => .error u := by
  induction l1 generalizing s with
  | nil => rfl
  | cons m rest ih =>
    simp only [List.cons_append, processEntries]
    cases processEntry mid bs bid s m with
    | none => rfl
    | some s1 => exact ih s1

/-- C9: when one retained entry of a job fails (for example a malformed
begin timestamp), the remaining entries of that job are not processed (the
result does not depend on them), the whole job contributes exactly one to
errorCount, and the rows already inserted for that job stay persisted and
stay counted in processedCount. -/
theorem entry_failure_isolation (remote : Remote) (mid : String) (bs : List BackupInfo)
    (bid : String) (s u : RunState) (logs : List LogEntry) (l1 l2 : List Msg) (m : Msg)
    (hl : remote.logsFor bid = some (true, logs))
    (hsplit : retainedMessages logs = l1 ++ m :: l2)
    (hpre : processEntries mid bs bid s l1 = .ok u)
    (hfail : processEntry mid bs bid u m = none) :
    processJob remote mid bs s bid = { u with errorCount := u.errorCount + 1 }
    ∧ u.errorCount = s.errorCount
    ∧ (∃ tail, u.store.runs = s.store.runs ++ tail) := by
  have he : processEntries mid bs bid s (retainedMessages logs) = .error u := by
    rw [hsplit, processEntries_append, hpre]
    simp only [processEntries, hfail]
  have hf := processEntries_fields mid bs bid l1 s
  rw [hpre] at hf
  exact ⟨processJob_eq_err remote mid bs s bid logs u hl he, hf.1, hf.2.2⟩

/-- C9 witness: the theorem applied to a job whose second retained entry
has an invalid begin timestamp; the first entry's row stays persisted and
counted, the third entry is never processed, and the job counts one error. -/
theorem entry_failure_isolation_witness :
    processJob exRemoteBadEntry "MID" [exJobA] { store := {} } "a"
      = { store := { runs := [exRec] }, processed := 1, skipped := 0,
          errorCount := 1, nextId := 1 } :=
  (entry_failure_isolation exRemoteBadEntry "MID" [exJobA] "a" { store := {} }
    { store := { runs := [exRec] }, processed := 1, nextId := 1 }
    [⟨some exMsg⟩, ⟨some exBadMsg⟩, ⟨some exMsg2⟩]
    [exMsg] [exMsg2] exBadMsg rfl rfl rfl rfl).1


theorem processEntry_error_shift (mid : String) (bs : List BackupInfo) (bid : String)
    (s : RunState) (m : Msg) (n : Nat) :
    processEntry mid bs bid { s with errorCount := n } m
      = (processEntry mid bs bid s m).map (fun t => { t with errorCount := n }) := by
  simp only [processEntry]
  split
  · rfl
  · split
    · rfl
    · split
      · rfl
      · split
        · rfl
        · rfl

theorem processEntries_error_shift (mid : String) (bs : List BackupInfo) (bid : String)
    (ms : List Msg) (s : RunState) (n : Nat) :
    processEntries mid bs bid { s with errorCount := n } ms
      = match processEntries mid bs bid s ms with
        | .ok t => .ok { t with errorCount := n }
        | .error t => .error { t with errorCount := n } := by
  induction ms generalizing s with
  | nil => rfl
  | cons m rest ih =>
    simp only [processEntries, processEntry_error_shift]
    cases processEntry mid bs bid s m with
    | none => rfl
    | some s1 =>
      simp only [Option.map_some']
      rw [ih s1]

theorem processJob_error_succ (remote : Remote) (mid : String) (bs : List BackupInfo)
    (s : RunState) (bid : String) :
    processJob remote mid bs { s with errorCount := s.errorCount + 1 } bid
      = { processJob remote mid bs s bid with
          errorCount := (processJob remote mid bs s bid).errorCount + 1 } := by
  cases hl : remote.logsFor bid with
  | none =>
    rw [processJob_eq_reject remote mid bs _ bid hl, processJob_eq_reject remote mid bs s bid hl]
  | some p =>
    obtain ⟨ok, logs⟩ := p
    cases ok with
    | false =>
      rw [processJob_eq_notok remote mid bs _ bid logs hl,
        processJob_eq_notok remote mid bs s bid logs hl]
    | true =>
      have hshift := processEntries_error_shift mid bs bid (retainedMessages logs) s
        (s.errorCount + 1)
      cases he : processEntries mid bs bid s (retainedMessages logs) with
      | ok t =>
        rw [he] at hshift
        have ht : t.errorCount = s.errorCount := by
          have := processEntries_fields mid bs bid (retainedMessages logs) s
          rw [he] at this
          exact this.1
        rw [processJob_eq_ok remote mid bs _ bid logs _ hl hshift,
          processJob_eq_ok remote mid bs s bid logs t hl he, ht]
      | error t =>
        rw [he] at hshift
        have ht : t.errorCount = s.errorCount := by
          have := processEntries_fields mid bs bid (retainedMessages logs) s
          rw [he] at this
          exact this.1
        rw [processJob_eq_err remote mid bs _ bid logs _ hl hshift,
          processJob_eq_err remote mid bs s bid logs t hl he]
        simp [ht]


/-- C4: with jobs [A, B, C] where the log fetch for B fails (transport
error or non-success HTTP status), the invocation still completes with a
counted result; the final state is exactly the state obtained by
processing A and then C, with one extra error counted for B — so every run
A and C persist is persisted and errorCount is at least 1. -/
theorem job_failure_isolation (inp : CollectInput) (remote : Remote) (store : Store)
    (n : Nat) (tok : Option String) (si : SystemInfo) (bs : List BackupInfo)
    (ja jb jc : String)
    (hh : falsy inp.hostname = false) (hp : falsy inp.password = false)
    (hproto : (inp.protocol.getD "http" != "http" && inp.protocol.getD "http" != "https") = false)
    (hlogin : remote.login = some (true, tok)) (htok : falsy tok = false)
    (hsys : remote.systeminfo = some (true, si))
    (hmach : (falsy (machineIdOf si) || falsy si.MachineName) = false)
    (hlist : remote.backupsList = some (true, bs))
    (hids : bs.map (fun b => b.Backup.ID) = [ja, jb, jc])
    (hfail : remote.logsFor jb = none ∨ ∃ l, remote.logsFor jb = some (false, l)) :
    collect inp remote store n
      = (.success
          (processJob remote ((machineIdOf si).getD "") bs
            (processJob remote ((machineIdOf si).getD "") bs
              { store := upsertMachine store ((machineIdOf si).getD "") (si.MachineName.getD "")
                nextId := n } ja) jc).processed
          (processJob remote ((machineIdOf si).getD "") bs
            (processJob remote ((machineIdOf si).getD "") bs
              { store := upsertMachine store ((machineIdOf si).getD "") (si.MachineName.getD "")
                nextId := n } ja) jc).skipped
          ((processJob remote ((machineIdOf si).getD "") bs
            (processJob remote ((machineIdOf si).getD "") bs
              { store := upsertMachine store ((machineIdOf si).getD "") (si.MachineName.getD "")
                nextId := n } ja) jc).errorCount + 1),
          (processJob remote ((machineIdOf si).getD "") bs
            (processJob remote ((machineIdOf si).getD "") bs
              { store := upsertMachine store ((machineIdOf si).getD "") (si.MachineName.getD "")
                nextId := n } ja) jc).store)
    ∧ 1 ≤ (processJob remote ((machineIdOf si).getD "") bs
            (processJob remote ((machineIdOf si).getD "") bs
              { store := upsertMachine store ((machineIdOf si).getD "") (si.MachineName.getD "")
                nextId := n } ja) jc).errorCount + 1 := by
  refine ⟨?_, by omega⟩
  unfold collect
  simp only [hh, hp, hproto, hlogin, htok, hsys, hmach, hlist, hids, Bool.not_true,
    Bool.not_false, Bool.false_eq_true, if_false, if_true, List.isEmpty_cons]
  have hB : ∀ u : RunState,
      processJob remote ((machineIdOf si).getD "") bs u jb
        = { u with errorCount := u.errorCount + 1 } := by
    intro u
    rcases hfail with hf | ⟨l, hf⟩
    · exact processJob_eq_reject remote _ bs u jb hf
    · exact processJob_eq_notok remote _ bs u jb l hf
  simp only [processJobs, hB]
  rw [processJob_error_succ]

/-- C4 witness: the theorem applied to a concrete three-job remote; A's
and C's runs are persisted, and B's failure is the one counted error. -/
theorem job_failure_isolation_witness :
    collect exInput exRemote3 {} 0
      = (.success 2 0 1,
          { machines := [("MID", "m1")], runs := [exRec, exRec2] }) :=
  (job_failure_isolation exInput exRemote3 {} 0 (some "tok") exSys
    [exJobA, exJobB, exJobC] "a" "b" "c"
    rfl rfl rfl rfl rfl rfl rfl rfl rfl (Or.inl rfl)).1


theorem checkDuplicate_false (st : Store) (a b c : String)
    (h : checkDuplicateBackup st a b c = false) :
    ∀ r ∈ st.runs, ¬ (r.machine_id = a ∧ r.backup_name = b ∧ r.date = c) := by
  intro r hr hc
  have : checkDuplicateBackup st a b c = true := by
    simp only [checkDuplicateBackup, List.any_eq_true]
    exact ⟨r, hr, by simp [tripleMatches, hc.1, hc.2.1, hc.2.2]⟩
  rw [h] at this
  exact absurd this (by simp)

theorem processEntry_runs_cases (mid : String) (bs : List BackupInfo) (bid : String)
    (s : RunState) (m : Msg) (s' : RunState)
    (h : processEntry mid bs bid s m = some s') :
    s'.store.runs = s.store.runs ∨ ∃ r, s'.store.runs = s.store.runs ++ [r] := by
  rcases processEntry_cases mid bs bid s m with hc | hc | hc | ⟨r, hc⟩ <;> rw [hc] at h
  · exact absurd h (by simp)
  all_goals rw [← Option.some.inj h]
  · exact Or.inl rfl
  · exact Or.inl rfl
  · exact Or.inr ⟨r, rfl⟩

theorem processEntry_insert_fresh (mid : String) (bs : List BackupInfo) (bid : String)
    (s : RunState) (m : Msg) (s' : RunState) (r : BackupRecord)
    (h : processEntry mid bs bid s m = some s')
    (hr : s'.store.runs = s.store.runs ++ [r]) :
    checkDuplicateBackup s.store r.machine_id r.backup_name r.date = false := by
  simp only [processEntry] at h
  split at h
  · exact absurd h (by simp)
  · split at h
    · rw [← Option.some.inj h] at hr
      exact absurd (congrArg List.length hr) (by simp)
    · split at h
      · rw [← Option.some.inj h] at hr
        exact absurd (congrArg List.length hr) (by simp)
      · next hdup =>
        split at h
        · exact absurd h (by simp)
        · next r0 hbuild =>
          rw [← Option.some.inj h] at hr
          simp only [insertBackup] at hr
          have hrr : r0 = r := by
            have := List.append_cancel_left hr
            exact (List.cons.inj this).1
          subst hrr
          obtain ⟨-, hm, hb, hd⟩ := buildRecord_fields _ _ _ _ _ _ _ _ hbuild
          rw [hm, hb, hd]
          exact Bool.not_eq_true _ ▸ hdup

theorem processEntry_dedup (mid : String) (bs : List BackupInfo) (bid : String)
    (s : RunState) (m : Msg) (s' : RunState) (base : List BackupRecord)
    (h : processEntry mid bs bid s m = some s')
    (hinv : dedupExtends base s.store.runs) :
    dedupExtends base s'.store.runs := by
  rcases processEntry_runs_cases mid bs bid s m s' h with hk | ⟨r, hr⟩
  · rw [hk]; exact hinv
  · have hall := checkDuplicate_false s.store _ _ _
      (processEntry_insert_fresh mid bs bid s m s' r h hr)
    obtain ⟨new, he, hpw, hfr⟩ := hinv
    refine ⟨new ++ [r], by rw [hr, he, List.append_assoc], ?_, ?_⟩
    · rw [List.pairwise_append]
      refine ⟨hpw, by simp, ?_⟩
      intro x hx y hy
      rw [List.mem_singleton] at hy
      subst hy
      intro hc
      exact hall x (by rw [he]; exact List.mem_append_right _ hx) ⟨hc.1, hc.2.1, hc.2.2⟩
    · intro x hx r0 hr0
      rcases List.mem_append.mp hx with hx | hx
      · exact hfr x hx r0 hr0
      · rw [List.mem_singleton] at hx
        subst hx
        intro hc
        exact hall r0 (by rw [he]; exact List.mem_append_left _ hr0)
          ⟨hc.1.symm, hc.2.1.symm, hc.2.2.symm⟩

theorem processEntries_dedup (mid : String) (bs : List BackupInfo) (bid : String)
    (ms : List Msg) (s : RunState) (base : List BackupRecord)
    (hinv : dedupExtends base s.store.runs) :
    dedupExtends base (exceptState (processEntries mid bs bid s ms)).store.runs := by
  induction ms generalizing s with
  | nil => exact hinv
  | cons m rest ih =>
    simp only [processEntries]
    cases he : processEntry mid bs bid s m with
    | none => exact hinv
    | some s1 => exact ih s1 (processEntry_dedup mid bs bid s m s1 base he hinv)

theorem processJob_dedup (remote : Remote) (mid : String) (bs : List BackupInfo)
    (s : RunState) (bid : String) (base : List BackupRecord)
    (hinv : dedupExtends base s.store.runs) :
    dedupExtends base (processJob remote mid bs s bid).store.runs := by
  cases hl : remote.logsFor bid with
  | none => rw [processJob_eq_reject remote mid bs s bid hl]; exact hinv
  | some p =>
    obtain ⟨ok, logs⟩ := p
    cases ok with
    | false => rw [processJob_eq_notok remote mid bs s bid logs hl]; exact hinv
    | true =>
      have hd := processEntries_dedup mid bs bid (retainedMessages logs) s base hinv
      cases he : processEntries mid bs bid s (retainedMessages logs) with
      | ok t =>
        rw [he] at hd
        rw [processJob_eq_ok remote mid bs s bid logs t hl he]
        exact hd
      | error t =>
        rw [he] at hd
        rw [processJob_eq_err remote mid bs s bid logs t hl he]
        exact hd

theorem processJobs_dedup (remote : Remote) (mid : String) (bs : List BackupInfo)
    (ids : List String) (s : RunState) (base : List BackupRecord)
    (hinv : dedupExtends base s.store.runs) :
    dedupExtends base (processJobs remote mid bs s ids).store.runs := by
  induction ids generalizing s with
  | nil => exact hinv
  | cons bid rest ih =>
    simp only [processJobs]
    exact ih _ (processJob_dedup remote mid bs s bid base hinv)

theorem upsertMachine_runs (st : Store) (a b : String) :
    (upsertMachine st a b).runs = st.runs := by
  unfold upsertMachine
  split <;> rfl

theorem dedupExtends_refl (runs : List BackupRecord) : dedupExtends runs runs :=
  ⟨[], by simp, List.Pairwise.nil, by simp⟩

theorem collect_dedup (inp : CollectInput) (remote : Remote) (store : Store) (n : Nat) :
    dedupExtends store.runs ((collect inp remote store n).2).runs := by
  unfold collect
  dsimp only
  split
  · exact dedupExtends_refl _
  · split
    · exact dedupExtends_refl _
    · split
      · exact dedupExtends_refl _
      · split
        · exact dedupExtends_refl _
        · split
          · exact dedupExtends_refl _
          · split
            · exact dedupExtends_refl _
            · split
              · exact dedupExtends_refl _
              · split
                · exact dedupExtends_refl _
                · split
                  · exact dedupExtends_refl _
                  · split
                    · exact upsertMachine_runs store _ _ ▸ dedupExtends_refl _
                    · split
                      · exact upsertMachine_runs store _ _ ▸ dedupExtends_refl _
                      · split
                        · exact upsertMachine_runs store _ _ ▸ dedupExtends_refl _
                        · exact processJobs_dedup _ _ _ _ _ _
                            (by rw [upsertMachine_runs store]; exact dedupExtends_refl _)

/-- C1: in every collection invocation a candidate run is inserted only
when the dedup lookup on its exact (machine id, backup name, start time)
triple found nothing, so the rows produced by one invocation have pairwise
distinct triples and triples absent from the pre-existing store — at most
one persisted row per triple, regardless of end times or other fields. -/
theorem dedup_gate_unique (inp : CollectInput) (remote : Remote) (store : Store) (n : Nat) :
    ∃ new, ((collect inp remote store n).2).runs = store.runs ++ new
      ∧ new.Pairwise (fun r1 r2 => ¬ sameTriple r1 r2)
      ∧ ∀ r ∈ new, ∀ r0 ∈ store.runs, ¬ sameTriple r r0 :=
  collect_dedup inp remote store n


theorem store_ext (s1 s2 : Store) (hm : s1.machines = s2.machines)
    (hr : s1.runs = s2.runs) : s1 = s2 := by
  cases s1
  cases s2
  simp_all

theorem any_key_map_upd (l : List (String × String)) (a b : String) :
    (l.map (fun p => if p.1 == a then (a, b) else p)).any (fun p => p.1 == a)
      = l.any (fun p => p.1 == a) := by
  induction l with
  | nil => rfl
  | cons p l ih =>
    by_cases hp : p.1 == a
    · simp only [List.map_cons, List.any_cons, if_pos hp, hp, ih]
      simp
    · simp only [List.map_cons, List.any_cons, if_neg hp, ih]

theorem map_upd_idem (l : List (String × String)) (a b : String) :
    ((l.map (fun p => if p.1 == a then (a, b) else p)).map
        (fun p => if p.1 == a then (a, b) else p))
      = l.map (fun p => if p.1 == a then (a, b) else p) := by
  induction l with
  | nil => rfl
  | cons p l ih =>
    by_cases hp : p.1 == a
    · simp only [List.map_cons, if_pos hp, ih]
      simp
    · simp only [List.map_cons, if_neg hp, ih]

theorem map_upd_of_no_key (l : List (String × String)) (a b : String)
    (h : l.any (fun p => p.1 == a) = false) :
    l.map (fun p => if p.1 == a then (a, b) else p) = l := by
  induction l with
  | nil => rfl
  | cons p l ih =>
    simp only [List.any_cons, Bool.or_eq_false_iff] at h
    have hne : ¬ ((p.1 == a) = true) := by
      rw [h.1]
      exact Bool.false_ne_true
    simp only [List.map_cons, if_neg hne, ih h.2]

theorem upsertMachine_machines_idem (st st2 : Store) (a b : String)
    (hm : st2.machines = (upsertMachine st a b).machines) :
    (upsertMachine st2 a b).machines = st2.machines := by
  unfold upsertMachine at hm ⊢
  by_cases hin : st.machines.any (fun p => p.1 == a) = true
  · rw [if_pos hin] at hm
    simp only at hm
    have h2 : st2.machines.any (fun p => p.1 == a) = true := by
      rw [hm, any_key_map_upd, hin]
    rw [if_pos h2]
    simp only [hm, map_upd_idem]
  · rw [if_neg hin] at hm
    simp only at hm
    have h2 : st2.machines.any (fun p => p.1 == a) = true := by
      rw [hm, List.any_append]
      simp
    rw [if_pos h2]
    simp only [hm, List.map_append]
    rw [map_upd_of_no_key _ _ _ (Bool.not_eq_true _ ▸ hin)]
    simp


theorem processEntry_sim (mid : String) (bs : List BackupInfo) (bid : String)
    (u u1 t : RunState) (m : Msg)
    (h : processEntry mid bs bid u m = some u1)
    (hsub : ∀ r ∈ u1.store.runs, r ∈ t.store.runs) :
    (u1.processed + u1.skipped = u.processed + u.skipped
      ∧ processEntry mid bs bid t m = some t)
    ∨ (u1.processed + u1.skipped = u.processed + u.skipped + 1
      ∧ processEntry mid bs bid t m = some { t with skipped := t.skipped + 1 }) := by
  cases hb : m.BeginTime with
  | none => simp [processEntry, hb] at h
  | some d =>
    by_cases hf : falsy ((bs.find? (fun b => b.Backup.ID == bid)).map
        (fun b => b.Backup.Name)) = true
    · left
      have h1 : u1 = u := by
        simp only [processEntry, hb, hf, if_true] at h
        exact (Option.some.inj h).symm
      subst h1
      exact ⟨rfl, by simp [processEntry, hb, hf]⟩
    · by_cases hdup : checkDuplicateBackup u.store mid
          (((bs.find? (fun b => b.Backup.ID == bid)).map (fun b => b.Backup.Name)).getD "")
          d = true
      · right
        have h1 : u1 = { u with skipped := u.skipped + 1 } := by
          simp only [processEntry, hb, if_neg hf, if_pos hdup] at h
          exact (Option.some.inj h).symm
        obtain ⟨r, hrmem, hrmatch⟩ := List.any_eq_true.mp hdup
        have hdup2 : checkDuplicateBackup t.store mid
            (((bs.find? (fun b => b.Backup.ID == bid)).map (fun b => b.Backup.Name)).getD "")
            d = true := by
          refine List.any_eq_true.mpr ⟨r, ?_, hrmatch⟩
          apply hsub
          rw [h1]
          exact hrmem
        refine ⟨by rw [h1]; rfl, ?_⟩
        simp [processEntry, hb, hf, hdup2]
      · right
        cases hbuild : buildRecord u.nextId mid
            (((bs.find? (fun b => b.Backup.ID == bid)).map (fun b => b.Backup.Name)).getD "")
            bid d (mapStatus m) m with
        | none =>
          simp only [processEntry, hb, if_neg hf, if_neg hdup, hbuild] at h
          exact absurd h (by simp)
        | some r0 =>
          have h1 : u1 = { u with
              store := insertBackup u.store r0
              processed := u.processed + 1
              nextId := u.nextId + 1 } := by
            simp only [processEntry, hb, if_neg hf, if_neg hdup, hbuild] at h
            exact (Option.some.inj h).symm
          have hr0mem : r0 ∈ t.store.runs := by
            apply hsub
            rw [h1]
            simp [insertBackup]
          obtain ⟨-, hm, hbn, hd⟩ := buildRecord_fields _ _ _ _ _ _ _ _ hbuild
          have hdup2 : checkDuplicateBackup t.store mid
              (((bs.find? (fun b => b.Backup.ID == bid)).map (fun b => b.Backup.Name)).getD "")
              d = true := by
            refine List.any_eq_true.mpr ⟨r0, hr0mem, ?_⟩
            simp [tripleMatches, hm, hbn, hd]
          refine ⟨by rw [h1]; simp; omega, ?_⟩
          simp [processEntry, hb, hf, hdup2]


theorem processEntries_sim (mid : String) (bs : List BackupInfo) (bid : String)
    (ms : List Msg) (u u1 t : RunState)
    (h : processEntries mid bs bid u ms = .ok u1)
    (hsub : ∀ r ∈ u1.store.runs, r ∈ t.store.runs) :
    ∃ t2, processEntries mid bs bid t ms = .ok t2
      ∧ t2.store = t.store ∧ t2.processed = t.processed
      ∧ t2.errorCount = t.errorCount ∧ t2.nextId = t.nextId
      ∧ t2.skipped + u.processed + u.skipped
          = t.skipped + u1.processed + u1.skipped := by
  induction ms generalizing u t with
  | nil =>
    have hu : u = u1 := Except.ok.inj h
    exact ⟨t, rfl, rfl, rfl, rfl, rfl, by rw [hu]⟩
  | cons m rest ih =>
    simp only [processEntries] at h
    cases he : processEntry mid bs bid u m with
    | none =>
      rw [he] at h
      exact absurd h (by simp)
    | some u2 =>
      rw [he] at h
      replace h : processEntries mid bs bid u2 rest = Except.ok u1 := h
      have hmono := processEntries_fields mid bs bid rest u2
      rw [h] at hmono
      obtain ⟨-, -, tail, htail⟩ := hmono
      have hsub2 : ∀ r ∈ u2.store.runs, r ∈ t.store.runs := by
        intro r hr
        apply hsub
        have : r ∈ u2.store.runs ++ tail := List.mem_append_left tail hr
        rw [← htail] at this
        exact this
      rcases processEntry_sim mid bs bid u u2 t m he hsub2 with ⟨heq, h2⟩ | ⟨heq, h2⟩
      · obtain ⟨t2, ht2, hst, hpr, herr, hnx, hsk⟩ := ih u2 t h hsub
        refine ⟨t2, ?_, hst, hpr, herr, hnx, by omega⟩
        simp only [processEntries, h2]
        exact ht2
      · obtain ⟨t2, ht2, hst, hpr, herr, hnx, hsk⟩ :=
          ih u2 { t with skipped := t.skipped + 1 } h hsub
        simp only at hst hpr herr hnx hsk
        refine ⟨t2, ?_, hst, hpr, herr, hnx, by omega⟩
        simp only [processEntries, h2]
        exact ht2

theorem processJob_sim (remote : Remote) (mid : String) (bs : List BackupInfo)
    (bid : String) (u u1 t : RunState)
    (h : processJob remote mid bs u bid = u1)
    (hnoerr : u1.errorCount = u.errorCount)
    (hsub : ∀ r ∈ u1.store.runs, r ∈ t.store.runs) :
    ∃ t2, processJob remote mid bs t bid = t2
      ∧ t2.store = t.store ∧ t2.processed = t.processed
      ∧ t2.errorCount = t.errorCount ∧ t2.nextId = t.nextId
      ∧ t2.skipped + u.processed + u.skipped
          = t.skipped + u1.processed + u1.skipped := by
  cases hl : remote.logsFor bid with
  | none =>
    rw [processJob_eq_reject remote mid bs u bid hl] at h
    rw [← h] at hnoerr
    simp at hnoerr
  | some p =>
    obtain ⟨ok, logs⟩ := p
    cases ok with
    | false =>
      rw [processJob_eq_notok remote mid bs u bid logs hl] at h
      rw [← h] at hnoerr
      simp at hnoerr
    | true =>
      cases he : processEntries mid bs bid u (retainedMessages logs) with
      | error t0 =>
        rw [processJob_eq_err remote mid bs u bid logs t0 hl he] at h
        have hf := processEntries_fields mid bs bid (retainedMessages logs) u
        rw [he] at hf
        simp only [exceptState] at hf
        obtain ⟨hf1, -, -⟩ := hf
        rw [← h] at hnoerr
        simp only at hnoerr
        omega
      | ok u1x =>
        rw [processJob_eq_ok remote mid bs u bid logs u1x hl he] at h
        subst h
        obtain ⟨t2, ht2, hst, hpr, herr, hnx, hsk⟩ :=
          processEntries_sim mid bs bid (retainedMessages logs) u u1x t he hsub
        exact ⟨t2, processJob_eq_ok remote mid bs t bid logs t2 hl ht2,
          hst, hpr, herr, hnx, hsk⟩

theorem processJobs_sim (remote : Remote) (mid : String) (bs : List BackupInfo)
    (ids : List String) (u u1 t : RunState)
    (h : processJobs remote mid bs u ids = u1)
    (hnoerr : u1.errorCount = u.errorCount)
    (hsub : ∀ r ∈ u1.store.runs, r ∈ t.store.runs) :
    ∃ t2, processJobs remote mid bs t ids = t2
      ∧ t2.store = t.store ∧ t2.processed = t.processed
      ∧ t2.errorCount = t.errorCount ∧ t2.nextId = t.nextId
      ∧ t2.skipped + u.processed + u.skipped
          = t.skipped + u1.processed + u1.skipped := by
  induction ids generalizing u t with
  | nil =>
    have hu : u = u1 := h
    exact ⟨t, rfl, rfl, rfl, rfl, rfl, by rw [hu]⟩
  | cons bid rest ih =>
    simp only [processJobs] at h
    have hjob := processJob_fields remote mid bs u bid
    obtain ⟨-, ⟨tail1, -⟩, hge, hle⟩ := hjob
    have hrest := processJobs_fields remote mid bs rest (processJob remote mid bs u bid)
    obtain ⟨-, ⟨tail2, htail2⟩, hge2⟩ := hrest
    rw [h] at htail2 hge2
    have hmid : (processJob remote mid bs u bid).errorCount = u.errorCount := by omega
    have hsub1 : ∀ r ∈ (processJob remote mid bs u bid).store.runs, r ∈ t.store.runs := by
      intro r hr
      apply hsub
      rw [htail2]
      exact List.mem_append_left tail2 hr
    obtain ⟨t2, ht2, hst, hpr, herr, hnx, hsk⟩ :=
      processJob_sim remote mid bs bid u (processJob remote mid bs u bid) t rfl hmid hsub1
    obtain ⟨t3, ht3, hst3, hpr3, herr3, hnx3, hsk3⟩ :=
      ih (processJob remote mid bs u bid) t2 h (by omega)
        (by intro r hr; rw [hst]; exact hsub r hr)
    refine ⟨t3, ?_, hst3.trans hst, hpr3.trans hpr, herr3.trans herr, hnx3.trans hnx, ?_⟩
    · simp only [processJobs, ht2]
      exact ht3
    · omega


/-- C3 (amended): when the first invocation completes with errorCount 0,
a second invocation against the unchanged remote yields processedCount 0
and skippedCount equal to the first call's processedCount plus its
skippedCount, leaving the store unchanged. -/
theorem collect_idempotent_when_clean (inp : CollectInput) (remote : Remote)
    (store st1 : Store) (n n2 p k : Nat)
    (h : collect inp remote store n = (.success p k 0, st1)) :
    collect inp remote st1 n2 = (.success 0 (p + k) 0, st1) := by
  unfold collect at h ⊢
  dsimp only at h ⊢
  split at h
  · exact absurd h (by simp)
  next hH =>
  split at h
  · exact absurd h (by simp)
  next hP =>
  split at h
  · exact absurd h (by simp)
  next hProto =>
  split at h
  · exact absurd h (by simp)
  next ok tok heqLogin =>
  split at h
  · exact absurd h (by simp)
  next hOk =>
  split at h
  · exact absurd h (by simp)
  next hTok =>
  split at h
  · exact absurd h (by simp)
  next ok2 si heqSys =>
  split at h
  · exact absurd h (by simp)
  next hOk2 =>
  split at h
  · exact absurd h (by simp)
  next hMach =>
  split at h
  · exact absurd h (by simp)
  next ok3 backups heqList =>
  split at h
  · exact absurd h (by simp)
  next hOk3 =>
  split at h
  · exact absurd h (by simp)
  next hEmpty =>
  rw [Prod.mk.injEq, CollectResult.success.injEq] at h
  obtain ⟨⟨hp, hk, he⟩, hst⟩ := h
  simp only [heqLogin, heqSys, heqList, if_neg hH, if_neg hP, if_neg hProto, if_neg hOk,
    if_neg hTok, if_neg hOk2, if_neg hMach, if_neg hOk3, if_neg hEmpty]
  set mid := (machineIdOf si).getD "" with hmid
  set nm := si.MachineName.getD "" with hnm
  set ids := backups.map (fun b => b.Backup.ID) with hids
  set u : RunState := { store := upsertMachine store mid nm, nextId := n } with hu
  set t0 : RunState := { store := upsertMachine st1 mid nm, nextId := n2 } with ht0
  have hnoerr : (processJobs remote mid backups u ids).errorCount = u.errorCount := by
    rw [he]
  have hsub : ∀ r ∈ (processJobs remote mid backups u ids).store.runs, r ∈ t0.store.runs := by
    intro r hr
    rw [hst] at hr
    show r ∈ (upsertMachine st1 mid nm).runs
    rw [upsertMachine_runs]
    exact hr
  obtain ⟨t2, ht2, hsto, hpr, herr, hnx, hsk⟩ :=
    processJobs_sim remote mid backups ids u (processJobs remote mid backups u ids) t0
      rfl hnoerr hsub
  rw [ht2]
  have hms : st1.machines = (upsertMachine store mid nm).machines := by
    rw [← hst]
    exact (processJobs_fields remote mid backups ids u).1
  have hstore_eq : upsertMachine st1 mid nm = st1 :=
    store_ext _ _ (upsertMachine_machines_idem store st1 mid nm hms) (upsertMachine_runs st1 mid nm)
  simp only [Prod.mk.injEq, CollectResult.success.injEq]
  refine ⟨⟨?_, ?_, ?_⟩, ?_⟩
  · rw [hpr]
  · rw [← hp, ← hk]
    have hu0 : u.processed = 0 := rfl
    have hu1 : u.skipped = 0 := rfl
    have ht00 : t0.skipped = 0 := rfl
    omega
  · rw [herr]
  · rw [hsto]
    show upsertMachine st1 mid nm = st1
    exact hstore_eq

/-- C3 counterexample: against `cexRemote` the first call reports
(processed, skipped, errors) = (1, 0, 1) and the second call (1, 2, 0):
the second call's processedCount is 1, not 0, and its skippedCount is 2,
not the first call's processedCount 1 — the claim as stated fails. -/
theorem collect_twice_counterexample :
    (collect exInput cexRemote {} 0).1 = CollectResult.success 1 0 1
    ∧ (collect exInput cexRemote (collect exInput cexRemote {} 0).2 1).1
        = CollectResult.success 1 2 0
    ∧ ¬ ((1 : Nat) = 0 ∧ (2 : Nat) = 1) :=
  ⟨rfl, rfl, by decide⟩

/-- C3 witness: a clean first run (1 processed, 0 skipped, 0 errors)
followed by a second run that processes nothing and skips exactly one. -/
theorem collect_idempotent_when_clean_witness :
    collect exInput exRemote { machines := [("MID", "m1")], runs := [exRec] } 1
      = (.success 0 (1 + 0) 0, { machines := [("MID", "m1")], runs := [exRec] }) :=
  collect_idempotent_when_clean exInput exRemote {}
    { machines := [("MID", "m1")], runs := [exRec] } 0 1 1 0 rfl

end Duplidash
